import Mathlib

/-!
Verification of the model-resolution and fetch-deduplication pipeline of
LibreChat: a shallow embedding of
`api/server/services/Config/loadConfigModels.js` and of the
`loadModels` / `getModelsConfig` / `modelController` module that wraps it
behind a verbosity-keyed cache, together with theorems checking the
natural-language specification against this embedding.

JavaScript objects used as string-keyed maps (`modelsConfig`,
`fetchPromisesMap`, `uniqueKeyToEndpointsMap`, `endpointsMap`,
`allModelDetails`) are embedded as insertion-ordered association lists:
assigning to an existing key updates the entry in place, assigning to a
fresh key appends it.  None of the keys these maps are enumerated under
(`Object.keys(fetchPromisesMap)` / `Object.assign`) can be an array-index
string (every fetch key contains `"__"`), so insertion order is the
enumeration order, as in JavaScript.

The external collaborators (`extractEnvVariable`, `normalizeEndpointName`,
`isUserProvided`, `fetchModels`, `fetchModelsWithDetails`,
`loadDefaultModels`, the config store cache) are parameters of the
embedding, mirroring the spec's §6 interface boundary.  Promises returned
by the fetch collaborators are embedded as already-resolved
`Except String` values: a rejected promise is `Except.error msg`, and
`await Promise.all` surfaces the first stored rejection.  Every actual
invocation of a fetch collaborator is recorded in an explicit trace so
that "number of fetch calls" is an observable of the embedding.
-/

namespace LibreChat

/-! ### Insertion-ordered association lists (JavaScript object maps) -/

/-- Lookup in an insertion-ordered string-keyed map (`m[k]`). -/
def alGet {β : Type} : List (String × β) → String → Option β
  | [], _ => none
  | (k, v) :: t, key => if k = key then some v else alGet t key

/-- Assignment `m[k] = v` on a JavaScript object: update in place when the
key is present, append otherwise. -/
def alSet {β : Type} : List (String × β) → String → β → List (String × β)
  | [], key, v => [(key, v)]
  | (k, w) :: t, key, v =>
    if k = key then (k, v) :: t else (k, w) :: alSet t key v

/-- The keys of a map, in insertion order (`Object.keys`). -/
def alKeys {β : Type} (m : List (String × β)) : List String :=
  m.map Prod.fst

/-! ### Data model -/

/-- One entry of a configured `models.default` list: either a plain model
identifier string or a structured object carrying a `name` field. -/
inductive ModelEntry : Type
  | str (s : String)
  | obj (name : String)
deriving DecidableEq, Repr

/-- The identifier a default entry maps to
(`typeof model === 'string' ? model : model.name`). -/
def entryName : ModelEntry → String
  | .str s => s
  | .obj n => n

/-- The `models` sub-object of a custom endpoint configuration.
`defaultModels` embeds `models.default`: `none` when the field is absent,
`some` when it is an array (its JavaScript truthiness is `isSome`). -/
structure ModelsSpec : Type where
  fetch : Bool
  defaultModels : Option (List ModelEntry)
  userIdQuery : Option String
deriving DecidableEq, Repr

/-- A custom endpoint configuration.  String-valued fields that JavaScript
checks for truthiness (`name`, `baseURL`, `apiKey`) use `""` for
absent-or-empty, which the eligibility filter rejects either way. -/
structure Endpoint : Type where
  name : String
  baseURL : String
  apiKey : String
  headers : List (String × String)
  directEndpoint : Bool
  models : Option ModelsSpec
deriving DecidableEq, Repr

/-- The `azureOpenAI` section of the endpoints configuration, as read by
`loadConfigModels` (fields it does not read are omitted). -/
structure AzureCfg : Type where
  modelNames : Option (List String)
  assistants : Bool
  assistantModels : Option (List String)
deriving DecidableEq, Repr

/-- The `endpoints` section of the application config.  `custom = none`
embeds both an absent `endpoints[custom]` and one that is not an array
(the code only tests `Array.isArray`). -/
structure EndpointsCfg : Type where
  azureOpenAI : Option AzureCfg
  custom : Option (List Endpoint)
deriving DecidableEq, Repr

/-- The application configuration returned by `getAppConfig`. -/
structure AppConfig : Type where
  endpoints : EndpointsCfg
deriving DecidableEq, Repr

/-- Opaque per-model metadata payload owned by the fetch collaborator. -/
abbrev Detail : Type := String

/-- A `modelDetails` mapping: model id to metadata, insertion ordered. -/
abbrev Details : Type := List (String × Detail)

/-- A `modelsConfig` mapping: endpoint name to its final model list. -/
abbrev Config : Type := List (String × List ModelEntry)

/-- The argument object passed to `fetchModels` /
`fetchModelsWithDetails`.  `user` stands for `req.user.id` (the companion
`userObject: req.user` carries no further information the embedding
distinguishes). -/
structure FetchParams : Type where
  name : String
  apiKey : String
  baseURL : String
  user : String
  headers : List (String × String)
  direct : Bool
  userIdQuery : Option String
deriving DecidableEq, Repr

/-- The value returned by `fetchModelsWithDetails`:
`{ models, modelDetails }`. -/
structure DetailedData : Type where
  models : List String
  modelDetails : Option Details
deriving DecidableEq, Repr

/-- A resolved fetch result as stored in `fetchPromisesMap`: a plain
string array from `fetchModels`, or a detailed record from
`fetchModelsWithDetails`. -/
inductive FetchValue : Type
  | plain (l : List String)
  | det (d : DetailedData)
deriving DecidableEq, Repr

/-- The external collaborators of the pipeline (spec §6), plus the two
request-derived inputs `userId` (`req.user.id`) and `appConfig` (the value
`getAppConfig` resolves to for this request). -/
structure Deps : Type where
  extractEnvVariable : String → String
  normalizeEndpointName : String → String
  isUserProvided : String → Bool
  fetchModels : FetchParams → Except String (List String)
  fetchModelsWithDetails : FetchParams → Except String DetailedData
  loadDefaultModels : Config
  userId : String
  appConfig : Option AppConfig

/-! ### loadConfigModels: first pass over the eligible endpoints -/

/-- The `models` object of an endpoint; eligibility guarantees it is
present, the fallback value is never read on eligible endpoints. -/
def modelsSpecOf (e : Endpoint) : ModelsSpec :=
  e.models.getD ⟨false, none, none⟩

/-- The eligibility filter over `appConfig.endpoints[custom]`:
`endpoint.baseURL && endpoint.apiKey && endpoint.name && endpoint.models
&& (endpoint.models.fetch || endpoint.models.default)`. -/
def eligible (e : Endpoint) : Bool :=
  e.baseURL != "" && e.apiKey != "" && e.name != "" &&
    match e.models with
    | some m => m.fetch || m.defaultModels.isSome
    | none => false

/-- The eligible custom endpoints of the request: empty when the app
config is absent or `endpoints[custom]` is not an array. -/
def customEndpointsOf : Option AppConfig → List Endpoint
  | none => []
  | some cfg =>
    match cfg.endpoints.custom with
    | some l => l.filter eligible
    | none => []

/-- The endpoint's normalized display name
(`normalizeEndpointName(configName)`). -/
def normName (d : Deps) (e : Endpoint) : String :=
  d.normalizeEndpointName e.name

/-- The fetch deduplication key: `` `${BASE_URL}__${API_KEY}` `` over the
env-resolved values. -/
def uniqueKey (d : Deps) (e : Endpoint) : String :=
  d.extractEnvVariable e.baseURL ++ "__" ++ d.extractEnvVariable e.apiKey

/-- The guard of the fetch branch: `models.fetch &&
!isUserProvided(API_KEY) && !isUserProvided(BASE_URL)`. -/
def fetchEligible (d : Deps) (e : Endpoint) : Bool :=
  (modelsSpecOf e).fetch &&
    !(d.isUserProvided (d.extractEnvVariable e.apiKey)) &&
    !(d.isUserProvided (d.extractEnvVariable e.baseURL))

/-- The argument object built for a fetch call on endpoint `e`. -/
def mkParams (d : Deps) (e : Endpoint) : FetchParams :=
  { name := normName d e
    apiKey := d.extractEnvVariable e.apiKey
    baseURL := d.extractEnvVariable e.baseURL
    user := d.userId
    headers := e.headers
    direct := e.directEndpoint
    userIdQuery := (modelsSpecOf e).userIdQuery }

/-- The fetch collaborator invocation `fetchFn({...})`, where `fetchFn`
is `fetchModelsWithDetails` in detailed mode and `fetchModels` in plain
mode. -/
def fetchCall (d : Deps) (inc : Bool) (e : Endpoint) : Except String FetchValue :=
  if inc then (d.fetchModelsWithDetails (mkParams d e)).map FetchValue.det
  else (d.fetchModels (mkParams d e)).map FetchValue.plain

/-- The mutable state of the first `for` loop of `loadConfigModels`,
together with the trace of fetch-collaborator invocations actually made
(one entry per `fetchFn({...})` call). -/
structure LoopState : Type where
  modelsConfig : Config
  fetchPromisesMap : List (String × Except String FetchValue)
  uniqueKeyToEndpointsMap : List (String × List String)
  endpointsMap : List (String × Endpoint)
  trace : List FetchParams

/-- One iteration of the first `for` loop of `loadConfigModels` on
endpoint `e`: record the endpoint under its normalized name, initialise
`modelsConfig[name] = []`, then either register the endpoint in the fetch
group of its unique key (issuing the fetch only when the key is new), or
assign the string-mapped default list. -/
def step (d : Deps) (inc : Bool) (st : LoopState) (e : Endpoint) : LoopState :=
  let name := normName d e
  let key := uniqueKey d e
  let st1 : LoopState :=
    { st with
      endpointsMap := alSet st.endpointsMap name e
      modelsConfig := alSet st.modelsConfig name [] }
  if fetchEligible d e then
    let st2 : LoopState :=
      if (alGet st1.fetchPromisesMap key).isSome then st1
      else
        { st1 with
          fetchPromisesMap := alSet st1.fetchPromisesMap key (fetchCall d inc e)
          trace := st1.trace ++ [mkParams d e] }
    { st2 with
      uniqueKeyToEndpointsMap :=
        alSet st2.uniqueKeyToEndpointsMap key
          ((alGet st2.uniqueKeyToEndpointsMap key).getD [] ++ [name]) }
  else
    match (modelsSpecOf e).defaultModels with
    | some ds =>
      { st1 with
        modelsConfig :=
          alSet st1.modelsConfig name (ds.map (fun m => ModelEntry.str (entryName m))) }
    | none => st1

/-- The `modelsConfig` entries contributed by the `azureOpenAI`
configuration block before the custom-endpoint loop runs. -/
def baseModels : Option AppConfig → Config
  | none => []
  | some cfg =>
    let az := cfg.endpoints.azureOpenAI
    let m1 : Config :=
      match az with
      | some a =>
        match a.modelNames with
        | some ns => [("azureOpenAI", ns.map ModelEntry.str)]
        | none => []
      | none => []
    let m2 : Config :=
      match az with
      | some a =>
        if a.assistants then
          match a.assistantModels with
          | some ns => [("azureAssistants", ns.map ModelEntry.str)]
          | none => []
        else []
      | none => []
    m1 ++ m2

/-- The loop state before the first iteration. -/
def initState (oc : Option AppConfig) : LoopState :=
  { modelsConfig := baseModels oc
    fetchPromisesMap := []
    uniqueKeyToEndpointsMap := []
    endpointsMap := []
    trace := [] }

/-- The full first pass of `loadConfigModels`: the azure block, the
eligibility filter and the `for` loop over the eligible custom
endpoints.  When the app config is absent or `endpoints[custom]` is not
an array the loop runs over zero endpoints, which reproduces the early
returns of the source. -/
def loadState (d : Deps) (inc : Bool) : LoopState :=
  (customEndpointsOf d.appConfig).foldl (step d inc) (initState d.appConfig)

/-! ### loadConfigModels: awaiting and distributing the fetch results -/

/-- The first rejection among the stored fetch promises, in insertion
order: the rejection `await Promise.all(...)` surfaces. -/
def firstErr : List (String × Except String FetchValue) → Option String
  | [] => none
  | (_, .error e) :: _ => some e
  | _ :: t => firstErr t

/-- The `(uniqueKey, resolved data)` pairs of `fetchPromisesMap` whose
promise fulfilled, in insertion order; when `firstErr` is `none` this is
exactly `Object.keys(fetchPromisesMap)` zipped with `fetchedData`. -/
def okEntries : List (String × Except String FetchValue) → List (String × FetchValue)
  | [] => []
  | (k, .ok v) :: t => (k, v) :: okEntries t
  | (_, .error _) :: t => okEntries t

/-- The endpoint's raw substituted default list on the fetch path:
`endpoint.models.default ?? []` (note: entries are NOT mapped down to
identifier strings here, unlike the non-fetch path). -/
def rawDefaults (e : Endpoint) : List ModelEntry :=
  ((modelsSpecOf e).defaultModels).getD []

/-- Placeholder for the (unreachable) lookup miss of `endpointsMap`. -/
def dummyEndpoint : Endpoint :=
  { name := "", baseURL := "", apiKey := "", headers := [], directEndpoint := false,
    models := none }

/-- Whether a resolved fetch value is the detailed record shape
(`typeof data === 'object' && 'models' in data`; a plain array fails the
`'models' in data` test). -/
def isDet : FetchValue → Bool
  | .det _ => true
  | .plain _ => false

/-- The `models` field of a detailed result (`[]` on the plain shape,
which never reaches this accessor). -/
def detModels : FetchValue → List String
  | .det dd => dd.models
  | .plain _ => []

/-- The `modelDetails` field of a detailed result. -/
def detDetails : FetchValue → Option Details
  | .det dd => dd.modelDetails
  | .plain _ => none

/-- `data?.length` on the else branch: the length of a plain array, `0`
for the detailed record shape (whose `length` is `undefined`, hence
falsy). -/
def plainLen : FetchValue → Nat
  | .plain l => l.length
  | .det _ => 0

/-- The plain string array carried by a fetch value (only read on the
else branch when `plainLen` is nonzero, so never on `.det`). -/
def plainList : FetchValue → List String
  | .plain l => l
  | .det _ => []

/-- The fetch group registered for a key
(`uniqueKeyToEndpointsMap[currentKey]`): the endpoint names sharing it,
in declaration order. -/
def groupOf (st : LoopState) (k : String) : List String :=
  (alGet st.uniqueKeyToEndpointsMap k).getD []

/-- `Object.assign(allModelDetails, modelDetails)`: fold every pair of
the source mapping into the accumulator, later pairs overwriting. -/
def assignDetails (acc : Details) (md : Details) : Details :=
  md.foldl (fun a p => alSet a p.1 p.2) acc

/-- The inner loop body of the distribution pass: assign the final model
list of one endpoint `name` of the group whose fetch resolved to `v`,
and in detailed mode merge the fetched `modelDetails` into the
accumulator. -/
def applyName (inc : Bool) (epMap : List (String × Endpoint)) (v : FetchValue)
    (acc : Config × Details) (name : String) : Config × Details :=
  let e := (alGet epMap name).getD dummyEndpoint
  if inc && isDet v then
    let ml := detModels v
    let cfg := alSet acc.1 name
      (if ml.length = 0 then rawDefaults e else ml.map ModelEntry.str)
    let dts :=
      match detDetails v with
      | some md => assignDetails acc.2 md
      | none => acc.2
    (cfg, dts)
  else
    (alSet acc.1 name
      (if plainLen v = 0 then rawDefaults e else (plainList v).map ModelEntry.str),
     acc.2)

/-- The second `for` loop of `loadConfigModels`: walk the fulfilled fetch
results in key insertion order and distribute each result to every
endpoint name of its group. -/
def secondLoop (inc : Bool) (st : LoopState) : Config × Details :=
  (okEntries st.fetchPromisesMap).foldl
    (fun acc kv =>
      (groupOf st kv.1).foldl (applyName inc st.endpointsMap kv.2) acc)
    (st.modelsConfig, [])

/-- The value `loadConfigModels` resolves to.  In plain mode the source
returns the bare `modelsConfig` object; `modelDetails` is then provably
`[]`, so the record shape carries no extra information. -/
structure LoadResult : Type where
  models : Config
  modelDetails : Details
deriving DecidableEq, Repr

/-- `loadConfigModels`, with the trace of fetch-collaborator invocations
as a second component.  A rejected fetch promise rejects the whole call
at the `Promise.all` barrier. -/
def loadConfigModelsT (d : Deps) (inc : Bool) :
    Except String LoadResult × List FetchParams :=
  let st := loadState d inc
  match firstErr st.fetchPromisesMap with
  | some e => (.error e, st.trace)
  | none =>
    let r := secondLoop inc st
    (.ok ⟨r.1, r.2⟩, st.trace)

/-- `loadConfigModels` proper: the resolved value. -/
def loadConfigModels (d : Deps) (inc : Bool) : Except String LoadResult :=
  (loadConfigModelsT d inc).1

/-! ### loadModels / getModelsConfig / modelController -/

/-- A value stored in (and served from) the config-store cache: the bare
models config in plain mode, or the `{ models, modelDetails }` record in
detailed mode. -/
inductive ConfigResult : Type
  | plain (models : Config)
  | detailed (models : Config) (modelDetails : Details)
deriving DecidableEq, Repr

/-- The `models` mapping carried by either result shape. -/
def modelsPart : ConfigResult → Config
  | .plain m => m
  | .detailed m _ => m

/-- The two verbosity-keyed slots of the config store:
`CacheKeys.MODELS_CONFIG` and `CacheKeys.MODELS_CONFIG + '_details'`. -/
structure Cache : Type where
  plain : Option ConfigResult
  detailed : Option ConfigResult
deriving DecidableEq, Repr

/-- `cache.get(cacheKey)` for the requested verbosity. -/
def getSlot (c : Cache) (inc : Bool) : Option ConfigResult :=
  if inc then c.detailed else c.plain

/-- `cache.set(cacheKey, v)` for the requested verbosity. -/
def setSlot (c : Cache) (inc : Bool) (v : ConfigResult) : Cache :=
  if inc then { c with detailed := some v } else { c with plain := some v }

/-- An observable invocation of an external provider made by
`loadModels`: the static default provider, or one fetch-collaborator
call. -/
inductive CallEv : Type
  | defaults
  | fetch (p : FetchParams)
deriving DecidableEq, Repr

/-- The object spread `{ ...defaultModelsConfig, ...customModelsConfig }`:
entries of the second object overwrite same-named entries of the first in
place, fresh names are appended. -/
def spreadMerge (a b : Config) : Config :=
  b.foldl (fun m kv => alSet m kv.1 kv.2) a

/-- `loadModels`, with the updated cache and the trace of external
provider invocations (`loadDefaultModels` and fetch-collaborator calls)
as extra components.  A fetch rejection escapes before `cache.set` is
reached, so the cache is returned unchanged on error. -/
def loadModelsT (d : Deps) (inc : Bool) (c : Cache) :
    Except String ConfigResult × Cache × List CallEv :=
  match getSlot c inc with
  | some v => (.ok v, c, [])
  | none =>
    match loadConfigModelsT d inc with
    | (.error e, tr) => (.error e, c, CallEv.defaults :: tr.map CallEv.fetch)
    | (.ok r, tr) =>
      let merged := spreadMerge d.loadDefaultModels r.models
      let v := if inc then ConfigResult.detailed merged r.modelDetails
               else ConfigResult.plain merged
      (.ok v, setSlot c inc v, CallEv.defaults :: tr.map CallEv.fetch)

/-- `getModelsConfig`: serve the cached slot when present, defer to
`loadModels` otherwise. -/
def getModelsConfigT (d : Deps) (inc : Bool) (c : Cache) :
    Except String ConfigResult × Cache × List CallEv :=
  match getSlot c inc with
  | some v => (.ok v, c, [])
  | none => loadModelsT d inc c

/-- The body a response is sent with: the resolved config, or the
`{ error: error.message }` payload of the catch branch. -/
inductive RespBody : Type
  | config (v : ConfigResult)
  | failure (msg : String)
deriving DecidableEq, Repr

/-- An HTTP response of `modelController`. -/
structure Response : Type where
  status : Nat
  body : RespBody
deriving DecidableEq, Repr

/-- `modelController`: parse `req.query.includeDetails === 'true'`, run
`loadModels`, send the config on success and a 500 with the error
message on failure. -/
def modelController (d : Deps) (c : Cache) (q : String) : Response × Cache :=
  let inc := q == "true"
  match loadModelsT d inc c with
  | (.ok v, c2, _) => ({ status := 200, body := .config v }, c2)
  | (.error e, c2, _) => ({ status := 500, body := .failure e }, c2)

/-! ### Derived observables used by the theorems -/

/-- The model list a non-fetch (or user-provided) endpoint ends up with:
the default entries mapped down to identifier strings, `[]` when no
default array is configured. -/
def mappedDefaults (e : Endpoint) : List ModelEntry :=
  match (modelsSpecOf e).defaultModels with
  | some ds => ds.map (fun m => ModelEntry.str (entryName m))
  | none => []

/-- The model list the distribution pass assigns to an endpoint of a
group whose fetch resolved to `v` (the exact value `applyName` writes). -/
def finalFor (inc : Bool) (v : FetchValue) (e : Endpoint) : List ModelEntry :=
  if inc && isDet v then
    if (detModels v).length = 0 then rawDefaults e
    else (detModels v).map ModelEntry.str
  else
    if plainLen v = 0 then rawDefaults e
    else (plainList v).map ModelEntry.str

/-- The ModelList carried by a fetch result: the array itself in plain
mode, the `models` field in detailed mode. -/
def modelsOfVal : FetchValue → List String
  | .plain l => l
  | .det dd => dd.models

/-- A fetch value has the shape the requested verbosity's collaborator
returns (plain array for `fetchModels`, detailed record for
`fetchModelsWithDetails`). -/
def variantMatches (inc : Bool) (v : FetchValue) : Prop :=
  isDet v = inc

/-! ### Concrete instances used by witnesses and counterexamples -/

/-- The endpoint of the C3 scenario: `models.fetch=true`,
`models.default=["d1"]`. -/
def epC : Endpoint :=
  { name := "C", baseURL := "https://c", apiKey := "K", headers := [],
    directEndpoint := false, models := some ⟨true, some [ModelEntry.str "d1"], none⟩ }

/-- Collaborators for the C3 scenario: the fetch resolves to `[]`. -/
def c3Deps : Deps :=
  { extractEnvVariable := id, normalizeEndpointName := id,
    isUserProvided := fun s => s == "user_provided",
    fetchModels := fun _ => Except.ok [],
    fetchModelsWithDetails := fun _ => Except.ok ⟨[], none⟩,
    loadDefaultModels := [], userId := "u",
    appConfig := some ⟨⟨none, some [epC]⟩⟩ }

/-- A fetch-enabled endpoint whose apiKey is the user-provided
placeholder. -/
def epU : Endpoint :=
  { name := "U", baseURL := "https://u", apiKey := "user_provided", headers := [],
    directEndpoint := false, models := some ⟨true, some [ModelEntry.str "u1"], none⟩ }

/-- Collaborators for the C9 scenario. -/
def c9Deps : Deps :=
  { extractEnvVariable := id, normalizeEndpointName := id,
    isUserProvided := fun s => s == "user_provided",
    fetchModels := fun _ => Except.ok ["never"],
    fetchModelsWithDetails := fun _ => Except.ok ⟨["never"], none⟩,
    loadDefaultModels := [], userId := "u",
    appConfig := some ⟨⟨none, some [epU]⟩⟩ }

/-- A fetch-enabled endpoint with a structured default entry
`{name:"m"}`. -/
def epF10 : Endpoint :=
  { name := "F", baseURL := "https://f", apiKey := "K", headers := [],
    directEndpoint := false, models := some ⟨true, some [ModelEntry.obj "m"], none⟩ }

/-- A non-fetch endpoint with the same structured default entry
`{name:"m"}`. -/
def epN10 : Endpoint :=
  { name := "N", baseURL := "https://n", apiKey := "K", headers := [],
    directEndpoint := false, models := some ⟨false, some [ModelEntry.obj "m"], none⟩ }

/-- Collaborators for the C10 scenario: the fetch resolves to `[]`. -/
def c10Deps : Deps :=
  { extractEnvVariable := id, normalizeEndpointName := id,
    isUserProvided := fun s => s == "user_provided",
    fetchModels := fun _ => Except.ok [],
    fetchModelsWithDetails := fun _ => Except.ok ⟨[], none⟩,
    loadDefaultModels := [], userId := "u",
    appConfig := some ⟨⟨none, some [epF10, epN10]⟩⟩ }

/-- The raw `endpoints[custom]` value of the configuration: `none` when
the app config is absent or the field is absent / not an array. -/
def customList : Option AppConfig → Option (List Endpoint)
  | none => none
  | some cfg => cfg.endpoints.custom

/-- The empty config store. -/
def emptyCache : Cache := ⟨none, none⟩

/-- Endpoint `A` of the C2 scenario: `baseURL https://x`, `apiKey K`,
`models.fetch=true`. -/
def epA2 : Endpoint :=
  { name := "A", baseURL := "https://x", apiKey := "K", headers := [],
    directEndpoint := false, models := some ⟨true, none, none⟩ }

/-- Endpoint `B` of the C2 scenario: same baseURL and apiKey as `A`. -/
def epB2 : Endpoint :=
  { name := "B", baseURL := "https://x", apiKey := "K", headers := [],
    directEndpoint := false, models := some ⟨true, none, none⟩ }

/-- Collaborators for the C2 scenario: the shared fetch resolves to
`["m1","m2"]`. -/
def c2Deps : Deps :=
  { extractEnvVariable := id, normalizeEndpointName := id,
    isUserProvided := fun s => s == "user_provided",
    fetchModels := fun _ => Except.ok ["m1", "m2"],
    fetchModelsWithDetails := fun _ => Except.ok ⟨["m1", "m2"], none⟩,
    loadDefaultModels := [], userId := "u",
    appConfig := some ⟨⟨none, some [epA2, epB2]⟩⟩ }

/-- Endpoint `A` with a shared key and its own default `["a"]`. -/
def epAe : Endpoint :=
  { name := "A", baseURL := "https://x", apiKey := "K", headers := [],
    directEndpoint := false,
    models := some ⟨true, some [ModelEntry.str "a"], none⟩ }

/-- Endpoint `B` with the same key as `A` but default `["b"]`. -/
def epBe : Endpoint :=
  { name := "B", baseURL := "https://x", apiKey := "K", headers := [],
    directEndpoint := false,
    models := some ⟨true, some [ModelEntry.str "b"], none⟩ }

/-- Collaborators for the C2 counterexample: the shared fetch resolves to
the empty list. -/
def c2eDeps : Deps :=
  { extractEnvVariable := id, normalizeEndpointName := id,
    isUserProvided := fun s => s == "user_provided",
    fetchModels := fun _ => Except.ok [],
    fetchModelsWithDetails := fun _ => Except.ok ⟨[], none⟩,
    loadDefaultModels := [], userId := "u",
    appConfig := some ⟨⟨none, some [epAe, epBe]⟩⟩ }

/-- Collaborators with no app config, identity resolvers (for key-shape
facts). -/
def cxDeps : Deps :=
  { extractEnvVariable := id, normalizeEndpointName := id,
    isUserProvided := fun s => s == "user_provided",
    fetchModels := fun _ => Except.ok [],
    fetchModelsWithDetails := fun _ => Except.ok ⟨[], none⟩,
    loadDefaultModels := [], userId := "u",
    appConfig := none }

/-- An endpoint whose baseURL itself contains the `__` separator. -/
def epX1 : Endpoint :=
  { name := "X1", baseURL := "a__b", apiKey := "c", headers := [],
    directEndpoint := false, models := some ⟨true, none, none⟩ }

/-- An endpoint with a different resolved pair that concatenates to the
same FetchKey as `epX1`. -/
def epX2 : Endpoint :=
  { name := "X2", baseURL := "a", apiKey := "b__c", headers := [],
    directEndpoint := false, models := some ⟨true, none, none⟩ }

/-- An app config with no custom-endpoint list but an azureOpenAI block
carrying `modelNames`. -/
def azCfg : AppConfig := ⟨⟨some ⟨some ["az1"], false, none⟩, none⟩⟩

/-- Collaborators for the C7 counterexample: empty default config, azure
model names present, custom endpoints absent. -/
def azDeps : Deps :=
  { extractEnvVariable := id, normalizeEndpointName := id,
    isUserProvided := fun s => s == "user_provided",
    fetchModels := fun _ => Except.ok [],
    fetchModelsWithDetails := fun _ => Except.ok ⟨[], none⟩,
    loadDefaultModels := [], userId := "u",
    appConfig := some azCfg }

/-- Collaborators with a non-empty default config and no app config at
all (for the C7 witness). -/
def defDeps : Deps :=
  { extractEnvVariable := id, normalizeEndpointName := id,
    isUserProvided := fun s => s == "user_provided",
    fetchModels := fun _ => Except.ok [],
    fetchModelsWithDetails := fun _ => Except.ok ⟨[], none⟩,
    loadDefaultModels := [("openAI", [ModelEntry.str "gpt"])], userId := "u",
    appConfig := none }

/-- A fetch-enabled endpoint whose fetch call will reject. -/
def epE : Endpoint :=
  { name := "E", baseURL := "https://e", apiKey := "K", headers := [],
    directEndpoint := false, models := some ⟨true, none, none⟩ }

/-- Collaborators whose fetch collaborator rejects with `boom`. -/
def errDeps : Deps :=
  { extractEnvVariable := id, normalizeEndpointName := id,
    isUserProvided := fun s => s == "user_provided",
    fetchModels := fun _ => Except.error "boom",
    fetchModelsWithDetails := fun _ => Except.error "boom",
    loadDefaultModels := [], userId := "u",
    appConfig := some ⟨⟨none, some [epE]⟩⟩ }

/-- First endpoint of the C8 scenario (its own key; `direct` marks it so
the fetch collaborator below can distinguish the two groups). -/
def epD1 : Endpoint :=
  { name := "D1", baseURL := "https://d1", apiKey := "K", headers := [],
    directEndpoint := true, models := some ⟨true, none, none⟩ }

/-- Second, distinct-key endpoint of the C8 scenario. -/
def epD2 : Endpoint :=
  { name := "D2", baseURL := "https://d2", apiKey := "K", headers := [],
    directEndpoint := false, models := some ⟨true, none, none⟩ }

/-- Collaborators for the C8 scenario: the two groups' detailed fetches
resolve to `modelDetails` mappings `md1` and `md2` respectively. -/
def detDeps (md1 md2 : Details) : Deps :=
  { extractEnvVariable := id, normalizeEndpointName := id,
    isUserProvided := fun s => s == "user_provided",
    fetchModels := fun _ => Except.ok [],
    fetchModelsWithDetails := fun p =>
      if p.direct then Except.ok ⟨["x1"], some md1⟩ else Except.ok ⟨["x2"], some md2⟩,
    loadDefaultModels := [], userId := "u",
    appConfig := some ⟨⟨none, some [epD1, epD2]⟩⟩ }

/-! ### Lemmas about the association-list operations -/

theorem alGet_alSet_self {β : Type} (m : List (String × β)) (k : String) (v : β) :
    alGet (alSet m k v) k = some v := by
  induction m with
  | nil => simp [alGet, alSet]
  | cons p t ih =>
    obtain ⟨k1, w⟩ := p
    by_cases h : k1 = k
    · simp [alGet, alSet, h]
    · simp [alGet, alSet, h, ih]

theorem alGet_alSet_ne {β : Type} (m : List (String × β)) (k k' : String) (v : β)
    (h : k' ≠ k) : alGet (alSet m k v) k' = alGet m k' := by
  have hk : ¬k = k' := fun hh => h hh.symm
  induction m with
  | nil => simp [alGet, alSet, hk]
  | cons p t ih =>
    obtain ⟨k1, w⟩ := p
    by_cases h1 : k1 = k
    · subst h1
      simp [alGet, alSet, hk]
    · simp [alGet, alSet, h1, ih]

theorem alGet_eq_none_iff {β : Type} (m : List (String × β)) (k : String) :
    alGet m k = none ↔ k ∉ alKeys m := by
  induction m with
  | nil => simp [alGet, alKeys]
  | cons p t ih =>
    obtain ⟨k1, w⟩ := p
    by_cases h : k1 = k
    · simp [alGet, alKeys, h]
    · simp [alGet, alKeys, h, ih, Ne.symm h]

theorem mem_alKeys_of_alGet {β : Type} {m : List (String × β)} {k : String} {v : β}
    (h : alGet m k = some v) : k ∈ alKeys m := by
  by_contra hk
  rw [← alGet_eq_none_iff] at hk
  rw [h] at hk
  exact Option.noConfusion hk

theorem alSet_of_alGet_none {β : Type} {m : List (String × β)} {k : String} (v : β)
    (h : alGet m k = none) : alSet m k v = m ++ [(k, v)] := by
  induction m with
  | nil => simp [alSet]
  | cons p t ih =>
    obtain ⟨k1, w⟩ := p
    by_cases h1 : k1 = k
    · simp [alGet, h1] at h
    · simp only [alGet, h1, if_false] at h
      simp [alSet, h1, ih h]

theorem alKeys_alSet_of_isSome {β : Type} {m : List (String × β)} {k : String} (v : β)
    (h : (alGet m k).isSome) : alKeys (alSet m k v) = alKeys m := by
  induction m with
  | nil => simp [alGet] at h
  | cons p t ih =>
    obtain ⟨k1, w⟩ := p
    by_cases h1 : k1 = k
    · simp [alSet, alKeys, h1]
    · simp only [alGet, h1, if_false] at h
      have h2 := ih h
      simp only [alKeys] at h2
      simp [alSet, alKeys, h1, h2]

theorem alKeys_append {β : Type} (m1 m2 : List (String × β)) :
    alKeys (m1 ++ m2) = alKeys m1 ++ alKeys m2 := by
  simp [alKeys]

theorem alKeys_alSet_nodup {β : Type} {m : List (String × β)} (k : String) (v : β)
    (h : (alKeys m).Nodup) : (alKeys (alSet m k v)).Nodup := by
  cases hg : alGet m k with
  | none =>
    rw [alSet_of_alGet_none v hg, alKeys_append]
    have hk : k ∉ alKeys m := (alGet_eq_none_iff m k).mp hg
    simp [alKeys, List.nodup_append]
    constructor
    · simpa [alKeys] using h
    · simpa [alKeys] using hk
  | some w =>
    rw [alKeys_alSet_of_isSome v (by simp [hg])]
    exact h

theorem length_alSet_of_isSome {β : Type} {m : List (String × β)} {k : String} (v : β)
    (h : (alGet m k).isSome) : (alSet m k v).length = m.length := by
  induction m with
  | nil => simp [alGet] at h
  | cons p t ih =>
    obtain ⟨k1, w⟩ := p
    by_cases h1 : k1 = k
    · simp [alSet, h1]
    · simp only [alGet, h1, if_false] at h
      simp [alSet, h1, ih h]

theorem alGet_alSet_alSet {β : Type} (m : List (String × β)) (k : String) (v w : β)
    (k' : String) : alGet (alSet (alSet m k v) k w) k' = alGet (alSet m k w) k' := by
  by_cases h : k' = k
  · subst h
    rw [alGet_alSet_self, alGet_alSet_self]
  · rw [alGet_alSet_ne _ _ _ _ h, alGet_alSet_ne _ _ _ _ h, alGet_alSet_ne _ _ _ _ h]

theorem count_eq_one_of_nodup_mem {l : List String} {a : String}
    (hn : l.Nodup) (hm : a ∈ l) : l.count a = 1 := by
  have h1 : l.count a ≤ 1 := List.nodup_iff_count_le_one.mp hn a
  have h2 : 0 < l.count a := List.count_pos_iff.mpr hm
  omega

/-! ### Behaviour of one first-loop iteration -/

theorem step_ep_get_self (d : Deps) (inc : Bool) (st : LoopState) (e : Endpoint) :
    alGet (step d inc st e).endpointsMap (normName d e) = some e := by
  unfold step
  cases hfe : fetchEligible d e with
  | false =>
    simp only [hfe, Bool.false_eq_true, if_false]
    cases (modelsSpecOf e).defaultModels <;> simp [alGet_alSet_self]
  | true =>
    simp only [hfe, if_true]
    by_cases hs : (alGet st.fetchPromisesMap (uniqueKey d e)).isSome <;>
      simp [hs, alGet_alSet_self]

theorem step_ep_get_ne (d : Deps) (inc : Bool) (st : LoopState) (e : Endpoint)
    (n : String) (h : n ≠ normName d e) :
    alGet (step d inc st e).endpointsMap n = alGet st.endpointsMap n := by
  unfold step
  cases hfe : fetchEligible d e with
  | false =>
    simp only [hfe, Bool.false_eq_true, if_false]
    cases (modelsSpecOf e).defaultModels <;> simp [alGet_alSet_ne _ _ _ _ h]
  | true =>
    simp only [hfe, if_true]
    by_cases hs : (alGet st.fetchPromisesMap (uniqueKey d e)).isSome <;>
      simp [hs, alGet_alSet_ne _ _ _ _ h]

theorem step_mc_get_self_fetch (d : Deps) (inc : Bool) (st : LoopState) (e : Endpoint)
    (hfe : fetchEligible d e = true) :
    alGet (step d inc st e).modelsConfig (normName d e) = some [] := by
  unfold step
  simp only [hfe, if_true]
  by_cases hs : (alGet st.fetchPromisesMap (uniqueKey d e)).isSome <;>
    simp [hs, alGet_alSet_self]

theorem step_mc_get_self_nonfetch (d : Deps) (inc : Bool) (st : LoopState) (e : Endpoint)
    (hfe : fetchEligible d e = false) :
    alGet (step d inc st e).modelsConfig (normName d e) = some (mappedDefaults e) := by
  unfold step
  simp only [hfe, Bool.false_eq_true, if_false]
  cases hd : (modelsSpecOf e).defaultModels with
  | none => simp [alGet_alSet_self, mappedDefaults, hd]
  | some ds => simp [alGet_alSet_alSet, alGet_alSet_self, mappedDefaults, hd]

theorem step_mc_get_ne (d : Deps) (inc : Bool) (st : LoopState) (e : Endpoint)
    (n : String) (h : n ≠ normName d e) :
    alGet (step d inc st e).modelsConfig n = alGet st.modelsConfig n := by
  unfold step
  cases hfe : fetchEligible d e with
  | false =>
    simp only [hfe, Bool.false_eq_true, if_false]
    cases (modelsSpecOf e).defaultModels <;>
      simp [alGet_alSet_ne _ _ _ _ h]
  | true =>
    simp only [hfe, if_true]
    by_cases hs : (alGet st.fetchPromisesMap (uniqueKey d e)).isSome <;>
      simp [hs, alGet_alSet_ne _ _ _ _ h]

theorem step_fpm_of_nonfetch (d : Deps) (inc : Bool) (st : LoopState) (e : Endpoint)
    (hfe : fetchEligible d e = false) :
    (step d inc st e).fetchPromisesMap = st.fetchPromisesMap := by
  unfold step
  simp only [hfe, Bool.false_eq_true, if_false]
  cases (modelsSpecOf e).defaultModels <;> simp

theorem step_fpm_of_some (d : Deps) (inc : Bool) (st : LoopState) (e : Endpoint)
    (hfe : fetchEligible d e = true)
    (hs : (alGet st.fetchPromisesMap (uniqueKey d e)).isSome) :
    (step d inc st e).fetchPromisesMap = st.fetchPromisesMap := by
  unfold step
  simp [hfe, hs]

theorem step_fpm_of_none (d : Deps) (inc : Bool) (st : LoopState) (e : Endpoint)
    (hfe : fetchEligible d e = true)
    (hs : alGet st.fetchPromisesMap (uniqueKey d e) = none) :
    (step d inc st e).fetchPromisesMap =
      alSet st.fetchPromisesMap (uniqueKey d e) (fetchCall d inc e) := by
  unfold step
  simp [hfe, hs]

theorem step_trace_of_nonfetch (d : Deps) (inc : Bool) (st : LoopState) (e : Endpoint)
    (hfe : fetchEligible d e = false) :
    (step d inc st e).trace = st.trace := by
  unfold step
  simp only [hfe, Bool.false_eq_true, if_false]
  cases (modelsSpecOf e).defaultModels <;> simp

theorem step_trace_of_some (d : Deps) (inc : Bool) (st : LoopState) (e : Endpoint)
    (hfe : fetchEligible d e = true)
    (hs : (alGet st.fetchPromisesMap (uniqueKey d e)).isSome) :
    (step d inc st e).trace = st.trace := by
  unfold step
  simp [hfe, hs]

theorem step_trace_of_none (d : Deps) (inc : Bool) (st : LoopState) (e : Endpoint)
    (hfe : fetchEligible d e = true)
    (hs : alGet st.fetchPromisesMap (uniqueKey d e) = none) :
    (step d inc st e).trace = st.trace ++ [mkParams d e] := by
  unfold step
  simp [hfe, hs]

theorem step_group_of_nonfetch (d : Deps) (inc : Bool) (st : LoopState) (e : Endpoint)
    (k : String) (hfe : fetchEligible d e = false) :
    groupOf (step d inc st e) k = groupOf st k := by
  unfold step groupOf
  simp only [hfe, Bool.false_eq_true, if_false]
  cases (modelsSpecOf e).defaultModels <;> simp

theorem step_group_self (d : Deps) (inc : Bool) (st : LoopState) (e : Endpoint)
    (hfe : fetchEligible d e = true) :
    groupOf (step d inc st e) (uniqueKey d e) =
      groupOf st (uniqueKey d e) ++ [normName d e] := by
  unfold step groupOf
  simp only [hfe, if_true]
  by_cases hs : (alGet st.fetchPromisesMap (uniqueKey d e)).isSome <;>
    simp [hs, alGet_alSet_self]

theorem step_group_ne (d : Deps) (inc : Bool) (st : LoopState) (e : Endpoint)
    (k : String) (h : k ≠ uniqueKey d e) (hfe : fetchEligible d e = true) :
    groupOf (step d inc st e) k = groupOf st k := by
  unfold step groupOf
  simp only [hfe, if_true]
  by_cases hs : (alGet st.fetchPromisesMap (uniqueKey d e)).isSome <;>
    simp [hs, alGet_alSet_ne _ _ _ _ h]

theorem step_fpm_get_ne (d : Deps) (inc : Bool) (st : LoopState) (e : Endpoint)
    (k : String) (h : k ≠ uniqueKey d e) :
    alGet (step d inc st e).fetchPromisesMap k = alGet st.fetchPromisesMap k := by
  cases hfe : fetchEligible d e with
  | false => rw [step_fpm_of_nonfetch d inc st e hfe]
  | true =>
    by_cases hs : (alGet st.fetchPromisesMap (uniqueKey d e)).isSome
    · rw [step_fpm_of_some d inc st e hfe hs]
    · rw [step_fpm_of_none d inc st e hfe (Option.not_isSome_iff_eq_none.mp hs)]
      exact alGet_alSet_ne _ _ _ _ h

/-! ### Invariants of the whole first loop -/

theorem foldl_trace_len (d : Deps) (inc : Bool) (es : List Endpoint) (st : LoopState)
    (h : st.trace.length = st.fetchPromisesMap.length) :
    (List.foldl (step d inc) st es).trace.length =
      (List.foldl (step d inc) st es).fetchPromisesMap.length := by
  induction es generalizing st with
  | nil => simpa using h
  | cons e t ih =>
    simp only [List.foldl_cons]
    apply ih
    cases hfe : fetchEligible d e with
    | false =>
      rw [step_trace_of_nonfetch d inc st e hfe, step_fpm_of_nonfetch d inc st e hfe, h]
    | true =>
      by_cases hs : (alGet st.fetchPromisesMap (uniqueKey d e)).isSome
      · rw [step_trace_of_some d inc st e hfe hs, step_fpm_of_some d inc st e hfe hs, h]
      · have hn := Option.not_isSome_iff_eq_none.mp hs
        rw [step_trace_of_none d inc st e hfe hn, step_fpm_of_none d inc st e hfe hn,
          alSet_of_alGet_none _ hn]
        simp [h]

theorem foldl_fpm_nodup (d : Deps) (inc : Bool) (es : List Endpoint) (st : LoopState)
    (h : (alKeys st.fetchPromisesMap).Nodup) :
    (alKeys (List.foldl (step d inc) st es).fetchPromisesMap).Nodup := by
  induction es generalizing st with
  | nil => simpa using h
  | cons e t ih =>
    simp only [List.foldl_cons]
    apply ih
    cases hfe : fetchEligible d e with
    | false => rw [step_fpm_of_nonfetch d inc st e hfe]; exact h
    | true =>
      by_cases hs : (alGet st.fetchPromisesMap (uniqueKey d e)).isSome
      · rw [step_fpm_of_some d inc st e hfe hs]; exact h
      · rw [step_fpm_of_none d inc st e hfe (Option.not_isSome_iff_eq_none.mp hs)]
        exact alKeys_alSet_nodup _ _ h

theorem foldl_fpm_keys_toFinset (d : Deps) (inc : Bool) (es : List Endpoint)
    (st : LoopState) :
    (alKeys (List.foldl (step d inc) st es).fetchPromisesMap).toFinset =
      (alKeys st.fetchPromisesMap).toFinset ∪
        ((es.filter (fetchEligible d)).map (uniqueKey d)).toFinset := by
  induction es generalizing st with
  | nil => simp
  | cons e t ih =>
    simp only [List.foldl_cons]
    rw [ih]
    cases hfe : fetchEligible d e with
    | false =>
      rw [step_fpm_of_nonfetch d inc st e hfe]
      simp [List.filter_cons, hfe]
    | true =>
      by_cases hs : (alGet st.fetchPromisesMap (uniqueKey d e)).isSome
      · rw [step_fpm_of_some d inc st e hfe hs]
        have hmem : uniqueKey d e ∈ alKeys st.fetchPromisesMap := by
          obtain ⟨v, hv⟩ := Option.isSome_iff_exists.mp hs
          exact mem_alKeys_of_alGet hv
        simp only [List.filter_cons, hfe, if_true, List.map_cons, List.toFinset_cons]
        ext a
        simp only [Finset.mem_union, List.mem_toFinset, Finset.mem_insert]
        constructor
        · rintro (h1 | h2)
          · exact Or.inl h1
          · exact Or.inr (Or.inr h2)
        · rintro (h1 | h2 | h3)
          · exact Or.inl h1
          · exact Or.inl (h2 ▸ hmem)
          · exact Or.inr h3
      · rw [step_fpm_of_none d inc st e hfe (Option.not_isSome_iff_eq_none.mp hs),
          alSet_of_alGet_none _ (Option.not_isSome_iff_eq_none.mp hs), alKeys_append]
        simp only [List.filter_cons, hfe, if_true, List.map_cons, List.toFinset_cons,
          List.toFinset_append]
        ext a
        simp only [Finset.mem_union, List.mem_toFinset, Finset.mem_insert, alKeys,
          List.map_cons, List.map_nil, List.mem_singleton]
        tauto

theorem foldl_group (d : Deps) (inc : Bool) (es : List Endpoint) (st : LoopState)
    (k : String) :
    groupOf (List.foldl (step d inc) st es) k =
      groupOf st k ++
        ((es.filter (fun e => fetchEligible d e && decide (uniqueKey d e = k))).map
          (normName d)) := by
  induction es generalizing st with
  | nil => simp
  | cons e t ih =>
    simp only [List.foldl_cons]
    rw [ih]
    cases hfe : fetchEligible d e with
    | false =>
      rw [step_group_of_nonfetch d inc st e k hfe]
      simp [List.filter_cons, hfe]
    | true =>
      by_cases hk : uniqueKey d e = k
      · subst hk
        rw [step_group_self d inc st e hfe]
        simp [List.filter_cons, hfe]
      · rw [step_group_ne d inc st e k (fun h => hk h.symm) hfe]
        simp [List.filter_cons, hfe, hk]

theorem foldl_ep_untouched (d : Deps) (inc : Bool) (es : List Endpoint) (st : LoopState)
    (n : String) (h : ∀ f ∈ es, normName d f ≠ n) :
    alGet (List.foldl (step d inc) st es).endpointsMap n = alGet st.endpointsMap n := by
  induction es generalizing st with
  | nil => rfl
  | cons e t ih =>
    simp only [List.foldl_cons]
    rw [ih _ (fun f hf => h f (List.mem_cons_of_mem e hf)),
      step_ep_get_ne d inc st e n (fun hn => h e (List.mem_cons_self e t) hn.symm)]

theorem foldl_ep_get (d : Deps) (inc : Bool) (es : List Endpoint) (st : LoopState)
    (e : Endpoint) (hmem : e ∈ es) (hnodup : (es.map (normName d)).Nodup) :
    alGet (List.foldl (step d inc) st es).endpointsMap (normName d e) = some e := by
  induction es generalizing st with
  | nil => cases hmem
  | cons a t ih =>
    simp only [List.map_cons, List.nodup_cons] at hnodup
    rcases List.mem_cons.mp hmem with h1 | h2
    · subst h1
      simp only [List.foldl_cons]
      rw [foldl_ep_untouched d inc t (step d inc st e) (normName d e)
        (fun f hf hn => hnodup.1 (hn ▸ List.mem_map_of_mem (normName d) hf))]
      exact step_ep_get_self d inc st e
    · simp only [List.foldl_cons]
      exact ih (step d inc st a) h2 hnodup.2

theorem foldl_mc_untouched (d : Deps) (inc : Bool) (es : List Endpoint) (st : LoopState)
    (n : String) (h : ∀ f ∈ es, normName d f ≠ n) :
    alGet (List.foldl (step d inc) st es).modelsConfig n = alGet st.modelsConfig n := by
  induction es generalizing st with
  | nil => rfl
  | cons e t ih =>
    simp only [List.foldl_cons]
    rw [ih _ (fun f hf => h f (List.mem_cons_of_mem e hf)),
      step_mc_get_ne d inc st e n (fun hn => h e (List.mem_cons_self e t) hn.symm)]

theorem foldl_mc_nonfetch (d : Deps) (inc : Bool) (es : List Endpoint) (st : LoopState)
    (e : Endpoint) (hmem : e ∈ es) (hnodup : (es.map (normName d)).Nodup)
    (hfe : fetchEligible d e = false) :
    alGet (List.foldl (step d inc) st es).modelsConfig (normName d e) =
      some (mappedDefaults e) := by
  induction es generalizing st with
  | nil => cases hmem
  | cons a t ih =>
    simp only [List.map_cons, List.nodup_cons] at hnodup
    rcases List.mem_cons.mp hmem with h1 | h2
    · subst h1
      simp only [List.foldl_cons]
      rw [foldl_mc_untouched d inc t (step d inc st e) (normName d e)
        (fun f hf hn => hnodup.1 (hn ▸ List.mem_map_of_mem (normName d) hf))]
      exact step_mc_get_self_nonfetch d inc st e hfe
    · simp only [List.foldl_cons]
      exact ih (step d inc st a) h2 hnodup.2

theorem foldl_trace_mem (d : Deps) (inc : Bool) (es : List Endpoint) (st : LoopState)
    (p : FetchParams) (h : p ∈ (List.foldl (step d inc) st es).trace) :
    p ∈ st.trace ∨ ∃ f, f ∈ es ∧ fetchEligible d f = true ∧ p = mkParams d f := by
  induction es generalizing st with
  | nil => exact Or.inl (by simpa using h)
  | cons e t ih =>
    simp only [List.foldl_cons] at h
    rcases ih (step d inc st e) h with h1 | ⟨f, hf, hfe, hp⟩
    · cases hfe : fetchEligible d e with
      | false =>
        rw [step_trace_of_nonfetch d inc st e hfe] at h1
        exact Or.inl h1
      | true =>
        by_cases hs : (alGet st.fetchPromisesMap (uniqueKey d e)).isSome
        · rw [step_trace_of_some d inc st e hfe hs] at h1
          exact Or.inl h1
        · rw [step_trace_of_none d inc st e hfe
            (Option.not_isSome_iff_eq_none.mp hs)] at h1
          rcases List.mem_append.mp h1 with h2 | h2
          · exact Or.inl h2
          · exact Or.inr ⟨e, List.mem_cons_self e t, hfe, List.mem_singleton.mp h2⟩
    · exact Or.inr ⟨f, List.mem_cons_of_mem e hf, hfe, hp⟩

/-- The fetch group of key `k` after the whole first loop: the normalized
names of the eligible fetch-requiring endpoints whose unique key is `k`,
in declaration order. -/
theorem loadState_group (d : Deps) (inc : Bool) (k : String) :
    groupOf (loadState d inc) k =
      (((customEndpointsOf d.appConfig).filter
          (fun e => fetchEligible d e && decide (uniqueKey d e = k))).map
        (normName d)) := by
  unfold loadState
  rw [foldl_group]
  simp [groupOf, initState, alGet]

theorem loadState_group_mem (d : Deps) (inc : Bool) (k : String) (m : String)
    (h : m ∈ groupOf (loadState d inc) k) :
    ∃ f, f ∈ customEndpointsOf d.appConfig ∧ fetchEligible d f = true ∧
      uniqueKey d f = k ∧ normName d f = m := by
  rw [loadState_group] at h
  obtain ⟨f, hf, hm⟩ := List.mem_map.mp h
  obtain ⟨hmem, hP⟩ := List.mem_filter.mp hf
  simp only [Bool.and_eq_true, decide_eq_true_eq] at hP
  exact ⟨f, hmem, hP.1, hP.2, hm⟩

/-! ### Behaviour of the distribution pass -/

theorem applyName_fst_self (inc : Bool) (epMap : List (String × Endpoint))
    (v : FetchValue) (acc : Config × Details) (n : String) :
    alGet (applyName inc epMap v acc n).1 n =
      some (finalFor inc v ((alGet epMap n).getD dummyEndpoint)) := by
  unfold applyName finalFor
  by_cases hd : (inc && isDet v) = true
  · simp [hd, alGet_alSet_self]
  · simp [hd, alGet_alSet_self]

theorem applyName_fst_ne (inc : Bool) (epMap : List (String × Endpoint))
    (v : FetchValue) (acc : Config × Details) (m n : String) (h : n ≠ m) :
    alGet (applyName inc epMap v acc m).1 n = alGet acc.1 n := by
  unfold applyName
  by_cases hd : (inc && isDet v) = true
  · simp [hd, alGet_alSet_ne _ _ _ _ h]
  · simp [hd, alGet_alSet_ne _ _ _ _ h]

theorem applyName_snd (inc : Bool) (epMap : List (String × Endpoint))
    (v : FetchValue) (acc : Config × Details) (m : String) :
    (applyName inc epMap v acc m).2 =
      if inc && isDet v then
        match detDetails v with
        | some md => assignDetails acc.2 md
        | none => acc.2
      else acc.2 := by
  unfold applyName
  by_cases hd : (inc && isDet v) = true
  · simp [hd]
  · simp [hd]

theorem inner_fst_untouched (inc : Bool) (epMap : List (String × Endpoint))
    (v : FetchValue) (names : List String) (acc : Config × Details) (n : String)
    (h : ∀ m ∈ names, m ≠ n) :
    alGet (names.foldl (applyName inc epMap v) acc).1 n = alGet acc.1 n := by
  induction names generalizing acc with
  | nil => rfl
  | cons m t ih =>
    simp only [List.foldl_cons]
    rw [ih _ (fun x hx => h x (List.mem_cons_of_mem m hx)),
      applyName_fst_ne inc epMap v acc m n
        (fun hn => h m (List.mem_cons_self m t) hn.symm)]

theorem inner_fst_self (inc : Bool) (epMap : List (String × Endpoint))
    (v : FetchValue) (names : List String) (acc : Config × Details) (n : String)
    (hnodup : names.Nodup) (hmem : n ∈ names) :
    alGet (names.foldl (applyName inc epMap v) acc).1 n =
      some (finalFor inc v ((alGet epMap n).getD dummyEndpoint)) := by
  induction names generalizing acc with
  | nil => cases hmem
  | cons m t ih =>
    simp only [List.nodup_cons] at hnodup
    rcases List.mem_cons.mp hmem with h1 | h2
    · subst h1
      simp only [List.foldl_cons]
      rw [inner_fst_untouched inc epMap v t _ n (fun x hx hn => hnodup.1 (hn ▸ hx)),
        applyName_fst_self]
    · simp only [List.foldl_cons]
      exact ih _ hnodup.2 h2

theorem outer_fst_untouched (inc : Bool) (st : LoopState)
    (entries : List (String × FetchValue)) (acc : Config × Details) (n : String)
    (h : ∀ kv ∈ entries, n ∉ groupOf st kv.1) :
    alGet (entries.foldl
        (fun acc kv =>
          (groupOf st kv.1).foldl (applyName inc st.endpointsMap kv.2) acc) acc).1 n =
      alGet acc.1 n := by
  induction entries generalizing acc with
  | nil => rfl
  | cons kv t ih =>
    simp only [List.foldl_cons]
    rw [ih _ (fun x hx => h x (List.mem_cons_of_mem kv hx)),
      inner_fst_untouched inc st.endpointsMap kv.2 _ acc n
        (fun m hm hn => h kv (List.mem_cons_self kv t) (hn ▸ hm))]

theorem outer_fst_main (inc : Bool) (st : LoopState)
    (entries : List (String × FetchValue)) (acc : Config × Details)
    (n k : String) (v : FetchValue)
    (hmem : (k, v) ∈ entries) (hkeys : (alKeys entries).Nodup)
    (hother : ∀ kv ∈ entries, kv.1 ≠ k → n ∉ groupOf st kv.1)
    (hn : n ∈ groupOf st k) (hgn : (groupOf st k).Nodup) :
    alGet (entries.foldl
        (fun acc kv =>
          (groupOf st kv.1).foldl (applyName inc st.endpointsMap kv.2) acc) acc).1 n =
      some (finalFor inc v ((alGet st.endpointsMap n).getD dummyEndpoint)) := by
  induction entries generalizing acc with
  | nil => cases hmem
  | cons kv t ih =>
    obtain ⟨k0, v0⟩ := kv
    simp only [alKeys, List.map_cons, List.nodup_cons] at hkeys
    by_cases hk : k0 = k
    · subst hk
      have hv : v0 = v := by
        rcases List.mem_cons.mp hmem with h1 | h2
        · exact ((Prod.mk.injEq k0 v k0 v0).mp h1).2.symm
        · exact absurd (List.mem_map_of_mem Prod.fst h2) hkeys.1
      subst hv
      simp only [List.foldl_cons]
      rw [outer_fst_untouched inc st t _ n
        (fun x hx => hother x (List.mem_cons_of_mem _ hx)
          (fun he => hkeys.1 (he ▸ List.mem_map_of_mem Prod.fst hx)))]
      exact inner_fst_self inc st.endpointsMap v0 _ _ n hgn hn
    · have hmem' : (k, v) ∈ t := by
        rcases List.mem_cons.mp hmem with h1 | h2
        · exact absurd (congrArg Prod.fst h1).symm hk
        · exact h2
      simp only [List.foldl_cons]
      rw [ih _ hmem' (by simpa [alKeys] using hkeys.2)
        (fun x hx => hother x (List.mem_cons_of_mem _ hx))]

theorem okEntries_mem {m : List (String × Except String FetchValue)} {k : String}
    {v : FetchValue} (h : alGet m k = some (Except.ok v)) : (k, v) ∈ okEntries m := by
  induction m with
  | nil => simp [alGet] at h
  | cons p t ih =>
    obtain ⟨k1, x⟩ := p
    by_cases h1 : k1 = k
    · subst h1
      simp only [alGet, eq_self_iff_true, if_true, Option.some.injEq] at h
      subst h
      simp [okEntries]
    · simp only [alGet, h1, if_false] at h
      cases x with
      | ok w => exact List.mem_cons_of_mem _ (ih h)
      | error e => exact ih h

theorem alKeys_okEntries_sublist (m : List (String × Except String FetchValue)) :
    List.Sublist (alKeys (okEntries m)) (alKeys m) := by
  induction m with
  | nil => exact List.Sublist.refl _
  | cons p t ih =>
    obtain ⟨k1, x⟩ := p
    cases x with
    | ok w => exact List.Sublist.cons₂ k1 ih
    | error e => exact List.Sublist.cons k1 ih

/-! ### The distribution theorems -/

/-- Distribution of a fetch result: every eligible fetch-requiring
endpoint (under globally distinct normalized names) receives exactly the
value `applyName` computes from its group's resolved fetch data. -/
theorem secondLoop_fetch (d : Deps) (inc : Bool) (e : Endpoint) (v : FetchValue)
    (hmem : e ∈ customEndpointsOf d.appConfig)
    (hnodup : ((customEndpointsOf d.appConfig).map (normName d)).Nodup)
    (hfe : fetchEligible d e = true)
    (hok : alGet (loadState d inc).fetchPromisesMap (uniqueKey d e) =
      some (Except.ok v)) :
    alGet (secondLoop inc (loadState d inc)).1 (normName d e) =
      some (finalFor inc v e) := by
  set st := loadState d inc with hst
  have hep : alGet st.endpointsMap (normName d e) = some e :=
    foldl_ep_get d inc _ _ e hmem hnodup
  have hgrp : normName d e ∈ groupOf st (uniqueKey d e) := by
    rw [hst, loadState_group]
    exact List.mem_map_of_mem (normName d)
      (List.mem_filter.mpr ⟨hmem, by simp [hfe]⟩)
  have hgrpnodup : (groupOf st (uniqueKey d e)).Nodup := by
    rw [hst, loadState_group]
    exact hnodup.sublist (List.Sublist.map (normName d) (List.filter_sublist _))
  have hinj := List.inj_on_of_nodup_map hnodup
  have hother : ∀ kv ∈ okEntries st.fetchPromisesMap, kv.1 ≠ uniqueKey d e →
      normName d e ∉ groupOf st kv.1 := by
    intro kv _ hne hmem2
    obtain ⟨f, hf, hfef, hkf, hnf⟩ := loadState_group_mem d inc kv.1 (normName d e)
      (hst ▸ hmem2)
    have hfeq : f = e := hinj hf hmem hnf
    have h2 : uniqueKey d e = kv.1 := by rw [← hfeq]; exact hkf
    exact hne h2.symm
  have hkeysnodup : (alKeys (okEntries st.fetchPromisesMap)).Nodup := by
    refine List.Nodup.sublist (alKeys_okEntries_sublist _) ?_
    rw [hst]
    exact foldl_fpm_nodup d inc _ _ (by simp [initState, alKeys])
  have hentry : (uniqueKey d e, v) ∈ okEntries st.fetchPromisesMap :=
    okEntries_mem hok
  unfold secondLoop
  rw [outer_fst_main inc st _ _ (normName d e) (uniqueKey d e) v hentry hkeysnodup
    hother hgrp hgrpnodup, hep]
  rfl

/-- Distribution for a non-fetch endpoint (models.fetch unset, or a
user-provided credential/address): the distribution pass never touches
its name, so its first-loop value — the string-mapped default list —
survives to the final config. -/
theorem secondLoop_nonfetch (d : Deps) (inc : Bool) (e : Endpoint)
    (hmem : e ∈ customEndpointsOf d.appConfig)
    (hnodup : ((customEndpointsOf d.appConfig).map (normName d)).Nodup)
    (hfe : fetchEligible d e = false) :
    alGet (secondLoop inc (loadState d inc)).1 (normName d e) =
      some (mappedDefaults e) := by
  set st := loadState d inc with hst
  have hinj := List.inj_on_of_nodup_map hnodup
  have huntouched : ∀ kv ∈ okEntries st.fetchPromisesMap,
      normName d e ∉ groupOf st kv.1 := by
    intro kv _ hmem2
    obtain ⟨f, hf, hfef, _, hnf⟩ := loadState_group_mem d inc kv.1 (normName d e)
      (hst ▸ hmem2)
    have : f = e := hinj hf hmem hnf
    rw [this] at hfef
    rw [hfef] at hfe
    exact Bool.noConfusion hfe
  unfold secondLoop
  rw [outer_fst_untouched inc st _ _ (normName d e) huntouched]
  exact foldl_mc_nonfetch d inc _ _ e hmem hnodup hfe

/-! ### Shared wrappers over loadConfigModels -/

theorem loadConfigModelsT_trace (d : Deps) (inc : Bool) :
    (loadConfigModelsT d inc).2 = (loadState d inc).trace := by
  simp only [loadConfigModelsT]
  cases h : firstErr (loadState d inc).fetchPromisesMap <;> simp [h]

theorem loadConfigModels_ok (d : Deps) (inc : Bool)
    (hne : firstErr (loadState d inc).fetchPromisesMap = none) :
    loadConfigModels d inc =
      Except.ok ⟨(secondLoop inc (loadState d inc)).1,
        (secondLoop inc (loadState d inc)).2⟩ := by
  unfold loadConfigModels loadConfigModelsT
  simp [hne]

theorem finalFor_of_variantMatches (inc : Bool) (v : FetchValue) (e : Endpoint)
    (h : variantMatches inc v) :
    finalFor inc v e =
      if modelsOfVal v = [] then rawDefaults e
      else (modelsOfVal v).map ModelEntry.str := by
  cases v with
  | plain l =>
    have hinc : inc = false := by
      simpa [variantMatches, isDet] using h.symm
    subst hinc
    cases l <;> simp [finalFor, modelsOfVal, plainLen, plainList, isDet]
  | det dd =>
    have hinc : inc = true := by
      simpa [variantMatches, isDet] using h.symm
    subst hinc
    cases hm : dd.models <;> simp [finalFor, modelsOfVal, detModels, isDet, hm]

/-! ### Claim C1 -/

/-- C1: for every configuration, the number of fetch-collaborator
invocations `loadConfigModels` makes equals the number of distinct
FetchKeys (`resolved baseURL ++ "__" ++ resolved apiKey`) among the
eligible fetch-requiring, non-user-provided custom endpoints — never more
than one fetch per distinct key. -/
theorem fetch_count_eq_distinct_keys (d : Deps) (inc : Bool) :
    (loadConfigModelsT d inc).2.length =
      (((customEndpointsOf d.appConfig).filter (fetchEligible d)).map
        (uniqueKey d)).toFinset.card := by
  have h1 : (loadConfigModelsT d inc).2 = (loadState d inc).trace :=
    loadConfigModelsT_trace d inc
  have h2 : (loadState d inc).trace.length =
      (loadState d inc).fetchPromisesMap.length := by
    unfold loadState
    exact foldl_trace_len d inc _ _ (by simp [initState])
  have h3 : (alKeys (loadState d inc).fetchPromisesMap).Nodup := by
    unfold loadState
    exact foldl_fpm_nodup d inc _ _ (by simp [initState, alKeys])
  have h4 : (alKeys (loadState d inc).fetchPromisesMap).toFinset =
      (((customEndpointsOf d.appConfig).filter (fetchEligible d)).map
        (uniqueKey d)).toFinset := by
    unfold loadState
    rw [foldl_fpm_keys_toFinset]
    simp [initState, alKeys]
  calc (loadConfigModelsT d inc).2.length
      = (loadState d inc).trace.length := by rw [h1]
    _ = (loadState d inc).fetchPromisesMap.length := h2
    _ = (alKeys (loadState d inc).fetchPromisesMap).length :=
        (List.length_map _ _).symm
    _ = (alKeys (loadState d inc).fetchPromisesMap).toFinset.card :=
        (List.toFinset_card_of_nodup h3).symm
    _ = _ := by rw [h4]

/-! ### Claim C3 -/

/-- C3: an eligible fetch-requiring endpoint whose group's fetch resolves
to an empty ModelList ends up with its configured `models.default` list
(the empty list when no default is configured), and a non-empty fetched
list is used verbatim. -/
theorem fetch_empty_falls_back_to_defaults (d : Deps) (inc : Bool) (e : Endpoint)
    (v : FetchValue)
    (hmem : e ∈ customEndpointsOf d.appConfig)
    (hnodup : ((customEndpointsOf d.appConfig).map (normName d)).Nodup)
    (hfe : fetchEligible d e = true)
    (hok : alGet (loadState d inc).fetchPromisesMap (uniqueKey d e) =
      some (Except.ok v))
    (hvm : variantMatches inc v)
    (hne : firstErr (loadState d inc).fetchPromisesMap = none) :
    ∃ r, loadConfigModels d inc = Except.ok r ∧
      alGet r.models (normName d e) =
        some (if modelsOfVal v = [] then rawDefaults e
              else (modelsOfVal v).map ModelEntry.str) := by
  refine ⟨_, loadConfigModels_ok d inc hne, ?_⟩
  show alGet (secondLoop inc (loadState d inc)).1 (normName d e) = _
  rw [secondLoop_fetch d inc e v hmem hnodup hfe hok,
    finalFor_of_variantMatches inc v e hvm]

/-- Witness for C3 at the spec's scenario: endpoint `C` has
`models.fetch=true`, the fetch resolves to `[]` and
`models.default=["d1"]`; the final list for `C` is `["d1"]`. -/
theorem fetch_empty_falls_back_to_defaults_witness :
    ∃ r, loadConfigModels c3Deps false = Except.ok r ∧
      alGet r.models (normName c3Deps epC) =
        some (if modelsOfVal (FetchValue.plain []) = [] then rawDefaults epC
              else (modelsOfVal (FetchValue.plain [])).map ModelEntry.str) :=
  fetch_empty_falls_back_to_defaults c3Deps false epC (FetchValue.plain [])
    (by decide) (by decide) (by decide) rfl rfl rfl

/-! ### Claim C9 -/

/-- C9: a fetch-enabled endpoint whose resolved apiKey or baseURL is a
user-provided placeholder is never fetched on the shared path (no fetch
invocation carries its name), and its model list is its
`models.default` mapped to plain identifier strings, or `[]` when no
default array is configured. -/
theorem user_provided_never_fetched (d : Deps) (inc : Bool) (e : Endpoint)
    (hmem : e ∈ customEndpointsOf d.appConfig)
    (hnodup : ((customEndpointsOf d.appConfig).map (normName d)).Nodup)
    (_hfetch : (modelsSpecOf e).fetch = true)
    (hup : d.isUserProvided (d.extractEnvVariable e.apiKey) = true ∨
      d.isUserProvided (d.extractEnvVariable e.baseURL) = true)
    (hne : firstErr (loadState d inc).fetchPromisesMap = none) :
    (∃ r, loadConfigModels d inc = Except.ok r ∧
      alGet r.models (normName d e) = some (mappedDefaults e)) ∧
    ∀ p ∈ (loadConfigModelsT d inc).2, p.name ≠ normName d e := by
  have hfe : fetchEligible d e = false := by
    unfold fetchEligible
    rcases hup with h | h <;> simp [h]
  constructor
  · refine ⟨_, loadConfigModels_ok d inc hne, ?_⟩
    show alGet (secondLoop inc (loadState d inc)).1 (normName d e) = _
    exact secondLoop_nonfetch d inc e hmem hnodup hfe
  · intro p hp
    rw [loadConfigModelsT_trace d inc] at hp
    rcases foldl_trace_mem d inc (customEndpointsOf d.appConfig)
        (initState d.appConfig) p hp with h1 | ⟨f, hf, hfef, hpf⟩
    · simp [initState] at h1
    · intro hname
      have hnn : normName d f = normName d e := by
        rw [hpf] at hname
        exact hname
      have hfeq : f = e := List.inj_on_of_nodup_map hnodup hf hmem hnn
      rw [hfeq] at hfef
      rw [hfef] at hfe
      exact Bool.noConfusion hfe

/-- Witness for C9: endpoint `U` has `models.fetch=true` but apiKey
`user_provided`; no fetch call carries its name and its list is the
mapped default `["u1"]`. -/
theorem user_provided_never_fetched_witness :
    (∃ r, loadConfigModels c9Deps false = Except.ok r ∧
      alGet r.models (normName c9Deps epU) = some (mappedDefaults epU)) ∧
    ∀ p ∈ (loadConfigModelsT c9Deps false).2, p.name ≠ normName c9Deps epU :=
  user_provided_never_fetched c9Deps false epU (by decide) (by decide) (by decide)
    (Or.inl (by decide)) rfl

/-! ### Claim C10 -/

/-- C10: the structured-entry-to-string mapping of default entries runs
only on the non-fetch path.  A fetch-requiring endpoint whose fetch
resolves empty receives its substituted `models.default` entries
verbatim (`{name:"m"}` stays the object), while a non-fetch endpoint's
identical default entry is mapped down to the string `"m"`. -/
theorem default_mapping_only_on_non_fetch_path (d : Deps) (inc : Bool)
    (ef en : Endpoint) (v : FetchValue)
    (hmemf : ef ∈ customEndpointsOf d.appConfig)
    (hmemn : en ∈ customEndpointsOf d.appConfig)
    (hnodup : ((customEndpointsOf d.appConfig).map (normName d)).Nodup)
    (hfe : fetchEligible d ef = true)
    (hnf : fetchEligible d en = false)
    (hok : alGet (loadState d inc).fetchPromisesMap (uniqueKey d ef) =
      some (Except.ok v))
    (hvm : variantMatches inc v)
    (hempty : modelsOfVal v = [])
    (hne : firstErr (loadState d inc).fetchPromisesMap = none) :
    ∃ r, loadConfigModels d inc = Except.ok r ∧
      alGet r.models (normName d ef) = some (rawDefaults ef) ∧
      alGet r.models (normName d en) = some (mappedDefaults en) := by
  refine ⟨_, loadConfigModels_ok d inc hne, ?_, ?_⟩
  · show alGet (secondLoop inc (loadState d inc)).1 (normName d ef) = _
    rw [secondLoop_fetch d inc ef v hmemf hnodup hfe hok,
      finalFor_of_variantMatches inc v ef hvm]
    simp [hempty]
  · show alGet (secondLoop inc (loadState d inc)).1 (normName d en) = _
    exact secondLoop_nonfetch d inc en hmemn hnodup hnf

/-- Witness for C10: endpoints `F` (fetch, fetch resolves `[]`) and `N`
(non-fetch) both configure `models.default=[{name:"m"}]`; `F` ends up
with the object entry itself, `N` with the string `"m"`. -/
theorem default_mapping_only_on_non_fetch_path_witness :
    (∃ r, loadConfigModels c10Deps false = Except.ok r ∧
      alGet r.models (normName c10Deps epF10) = some (rawDefaults epF10) ∧
      alGet r.models (normName c10Deps epN10) = some (mappedDefaults epN10)) ∧
    rawDefaults epF10 = [ModelEntry.obj "m"] ∧
    mappedDefaults epN10 = [ModelEntry.str "m"] :=
  ⟨default_mapping_only_on_non_fetch_path c10Deps false epF10 epN10
      (FetchValue.plain []) (by decide) (by decide) (by decide) (by decide)
      (by decide) rfl rfl rfl rfl,
    rfl, rfl⟩

/-! ### Claim C2 -/

/-- C2 counterexample: endpoints `A` and `B` share one FetchKey
(identical resolved baseURL and apiKey) but, because the shared fetch
resolves to the empty list, each falls back to its own `models.default`
and the two ModelLists differ — so two same-key endpoints do not always
receive an identical ModelList. -/
theorem shared_key_lists_can_differ :
    uniqueKey c2eDeps epAe = uniqueKey c2eDeps epBe ∧
    loadConfigModels c2eDeps false =
      Except.ok ⟨[("A", [ModelEntry.str "a"]), ("B", [ModelEntry.str "b"])], []⟩ ∧
    ([ModelEntry.str "a"] : List ModelEntry) ≠ [ModelEntry.str "b"] :=
  ⟨rfl, rfl, by decide⟩

/-- C2 (amended): two eligible fetch-requiring endpoints sharing one
FetchKey receive an identical ModelList — the fetched list — whenever the
shared fetch resolves to a non-empty list (with an empty fetched list,
each endpoint falls back to its own `models.default`). -/
theorem shared_key_same_nonempty_list (d : Deps) (inc : Bool) (eA eB : Endpoint)
    (v : FetchValue)
    (hmemA : eA ∈ customEndpointsOf d.appConfig)
    (hmemB : eB ∈ customEndpointsOf d.appConfig)
    (hnodup : ((customEndpointsOf d.appConfig).map (normName d)).Nodup)
    (hfeA : fetchEligible d eA = true)
    (hfeB : fetchEligible d eB = true)
    (hkey : uniqueKey d eA = uniqueKey d eB)
    (hok : alGet (loadState d inc).fetchPromisesMap (uniqueKey d eA) =
      some (Except.ok v))
    (hvm : variantMatches inc v)
    (hnonempty : modelsOfVal v ≠ [])
    (hne : firstErr (loadState d inc).fetchPromisesMap = none) :
    ∃ r, loadConfigModels d inc = Except.ok r ∧
      alGet r.models (normName d eA) = some ((modelsOfVal v).map ModelEntry.str) ∧
      alGet r.models (normName d eB) = some ((modelsOfVal v).map ModelEntry.str) := by
  refine ⟨_, loadConfigModels_ok d inc hne, ?_, ?_⟩
  · show alGet (secondLoop inc (loadState d inc)).1 (normName d eA) = _
    rw [secondLoop_fetch d inc eA v hmemA hnodup hfeA hok,
      finalFor_of_variantMatches inc v eA hvm]
    simp [hnonempty]
  · show alGet (secondLoop inc (loadState d inc)).1 (normName d eB) = _
    rw [secondLoop_fetch d inc eB v hmemB hnodup hfeB (hkey ▸ hok),
      finalFor_of_variantMatches inc v eB hvm]
    simp [hnonempty]

/-- Witness for the amended C2 at the spec's scenario: `A` and `B` share
baseURL `https://x` and apiKey `K`, the shared fetch resolves to
`["m1","m2"]`, both names map to `["m1","m2"]`, and exactly one fetch
call is recorded. -/
theorem shared_key_same_nonempty_list_witness :
    (∃ r, loadConfigModels c2Deps false = Except.ok r ∧
      alGet r.models (normName c2Deps epA2) =
        some ((modelsOfVal (FetchValue.plain ["m1", "m2"])).map ModelEntry.str) ∧
      alGet r.models (normName c2Deps epB2) =
        some ((modelsOfVal (FetchValue.plain ["m1", "m2"])).map ModelEntry.str)) ∧
    (loadConfigModelsT c2Deps false).2.length = 1 :=
  ⟨shared_key_same_nonempty_list c2Deps false epA2 epB2
      (FetchValue.plain ["m1", "m2"]) (by decide) (by decide) (by decide)
      (by decide) (by decide) rfl rfl rfl (by decide) rfl,
    rfl⟩

/-! ### Claim C6 -/

/-- C6 counterexample: the `__` separator can occur inside a component,
so the FetchKey construction is not injective — `epX1` (baseURL `a__b`,
apiKey `c`) and `epX2` (baseURL `a`, apiKey `b__c`) share the FetchKey
`a__b__c` while their resolved baseURLs differ. -/
theorem uniqueKey_not_injective :
    uniqueKey cxDeps epX1 = uniqueKey cxDeps epX2 ∧
    cxDeps.extractEnvVariable epX1.baseURL ≠ cxDeps.extractEnvVariable epX2.baseURL :=
  ⟨rfl, by decide⟩

/-- C6 (amended): FetchKey equality does follow from equality of the
resolved `(baseURL, apiKey)` pair, and the number of distinct FetchKeys
never exceeds the number of eligible fetch-requiring endpoints; but the
separator can occur inside a component, so key equality does not imply
pair equality and the key count can drop below the endpoint count even
when no two endpoints share both credentials and address. -/
theorem uniqueKey_sound_and_count_le (d : Deps) (l : List Endpoint)
    (e1 e2 : Endpoint)
    (hb : d.extractEnvVariable e1.baseURL = d.extractEnvVariable e2.baseURL)
    (ha : d.extractEnvVariable e1.apiKey = d.extractEnvVariable e2.apiKey) :
    uniqueKey d e1 = uniqueKey d e2 ∧
    ((l.filter (fetchEligible d)).map (uniqueKey d)).toFinset.card ≤
      (l.filter (fetchEligible d)).length := by
  constructor
  · unfold uniqueKey
    rw [hb, ha]
  · calc ((l.filter (fetchEligible d)).map (uniqueKey d)).toFinset.card
        ≤ ((l.filter (fetchEligible d)).map (uniqueKey d)).length :=
          ((l.filter (fetchEligible d)).map (uniqueKey d)).toFinset_card_le
      _ = (l.filter (fetchEligible d)).length := List.length_map _ _

/-- Witness for the amended C6 at two endpoints with equal resolved
pairs. -/
theorem uniqueKey_sound_and_count_le_witness :
    uniqueKey cxDeps epAe = uniqueKey cxDeps epBe ∧
    (([epAe, epBe].filter (fetchEligible cxDeps)).map
      (uniqueKey cxDeps)).toFinset.card ≤
      ([epAe, epBe].filter (fetchEligible cxDeps)).length :=
  uniqueKey_sound_and_count_le cxDeps [epAe, epBe] epAe epBe rfl rfl

/-! ### Claim C7 -/

/-- C7 counterexample: with `endpoints[custom]` absent but an
`azureOpenAI` block carrying `modelNames`, a cache-miss `loadModels`
resolution returns a config containing the azure entry, which differs
from the default provider's (empty) ModelsConfig — so the result is not
always the default config unchanged. -/
theorem no_custom_list_result_not_defaults :
    customList azDeps.appConfig = none ∧
    azDeps.loadDefaultModels = [] ∧
    (loadModelsT azDeps false emptyCache).1 =
      Except.ok (ConfigResult.plain [("azureOpenAI", [ModelEntry.str "az1"])]) ∧
    ([("azureOpenAI", [ModelEntry.str "az1"])] : Config) ≠ azDeps.loadDefaultModels :=
  ⟨rfl, rfl, rfl, by decide⟩

/-- C7 (amended): when the custom-endpoint configuration is absent or
not a list, resolution proceeds with zero custom endpoints and a
cache-miss `loadModels` returns the default provider's ModelsConfig
overridden only by azure-derived entries; in particular, when the azure
block contributes no entries, the result is exactly the default
ModelsConfig unchanged. -/
theorem no_custom_list_defaults_unchanged (d : Deps) (inc : Bool) (c : Cache)
    (hmiss : getSlot c inc = none)
    (hcustom : customList d.appConfig = none)
    (haz : baseModels d.appConfig = []) :
    (loadModelsT d inc c).1 =
      Except.ok (if inc then ConfigResult.detailed d.loadDefaultModels []
                 else ConfigResult.plain d.loadDefaultModels) := by
  have h1 : customEndpointsOf d.appConfig = [] := by
    cases hc : d.appConfig with
    | none => rfl
    | some cfg =>
      have h2 : cfg.endpoints.custom = none := by
        simpa [customList, hc] using hcustom
      simp [customEndpointsOf, h2]
  have h2 : loadState d inc = initState d.appConfig := by
    unfold loadState
    rw [h1]
    rfl
  have h3 : loadConfigModelsT d inc = (Except.ok ⟨[], []⟩, []) := by
    unfold loadConfigModelsT
    rw [h2]
    simp [initState, haz, firstErr, secondLoop, okEntries]
  simp [loadModelsT, hmiss, h3, spreadMerge]

/-- Witness for the amended C7: no app config at all, non-empty default
config; the cache-miss result is the default config unchanged. -/
theorem no_custom_list_defaults_unchanged_witness :
    (loadModelsT defDeps false emptyCache).1 =
      Except.ok (if false then ConfigResult.detailed defDeps.loadDefaultModels []
                 else ConfigResult.plain defDeps.loadDefaultModels) :=
  no_custom_list_defaults_unchanged defDeps false emptyCache rfl rfl rfl

/-! ### Claim C4 -/

/-- C4: when a stored fetch promise rejected, the error is not caught in
`loadConfigModels` or `loadModels`: the whole resolution rejects with
that error, the cache is returned unchanged (no slot written), and
`modelController` responds 500 with the error message instead of
degrading to defaults. -/
theorem fetch_error_propagates (d : Deps) (c : Cache) (q : String) (e : String)
    (hmiss : getSlot c (q == "true") = none)
    (herr : firstErr (loadState d (q == "true")).fetchPromisesMap = some e) :
    (loadModelsT d (q == "true") c).1 = Except.error e ∧
    (loadModelsT d (q == "true") c).2.1 = c ∧
    modelController d c q = (⟨500, RespBody.failure e⟩, c) := by
  have hT : loadConfigModelsT d (q == "true") =
      (Except.error e, (loadState d (q == "true")).trace) := by
    unfold loadConfigModelsT
    simp [herr]
  have hL : loadModelsT d (q == "true") c =
      (Except.error e, c,
        CallEv.defaults :: (loadState d (q == "true")).trace.map CallEv.fetch) := by
    simp [loadModelsT, hmiss, hT]
  refine ⟨by rw [hL], by rw [hL], ?_⟩
  simp [modelController, hL]

/-- Witness for C4: one fetch-enabled endpoint whose fetch rejects with
`boom`; resolution rejects, the cache slot stays empty and the controller
answers 500 `boom`. -/
theorem fetch_error_propagates_witness :
    (loadModelsT errDeps ("false" == "true") emptyCache).1 = Except.error "boom" ∧
    (loadModelsT errDeps ("false" == "true") emptyCache).2.1 = emptyCache ∧
    modelController errDeps emptyCache "false" =
      (⟨500, RespBody.failure "boom"⟩, emptyCache) :=
  fetch_error_propagates errDeps emptyCache "false" "boom" rfl rfl

/-! ### Claim C5 -/

/-- C5: after any successful `loadModels` call (hit or miss) yields value
`v` and cache `c2`, a subsequent call with the same verbosity against
`c2` returns the same `v`, leaves the cache unchanged, and makes no
external invocation at all — neither the default provider nor the fetch
collaborator. -/
theorem cache_round_trip (d : Deps) (inc : Bool) (c c2 : Cache) (v : ConfigResult)
    (tr : List CallEv)
    (h : loadModelsT d inc c = (Except.ok v, c2, tr)) :
    loadModelsT d inc c2 = (Except.ok v, c2, []) := by
  cases hs : getSlot c inc with
  | some w =>
    simp only [loadModelsT, hs] at h
    simp only [Prod.mk.injEq, Except.ok.injEq] at h
    obtain ⟨h1, h2, -⟩ := h
    subst h1
    subst h2
    simp [loadModelsT, hs]
  | none =>
    simp only [loadModelsT, hs] at h
    cases hC : loadConfigModelsT d inc with
    | mk res tr2 =>
      cases res with
      | error er =>
        rw [hC] at h
        simp at h
      | ok r =>
        rw [hC] at h
        simp only [Prod.mk.injEq, Except.ok.injEq] at h
        obtain ⟨h1, h2, -⟩ := h
        subst h1
        rw [← h2]
        have hslot : getSlot (setSlot c inc
            (if inc then ConfigResult.detailed (spreadMerge d.loadDefaultModels r.models)
                r.modelDetails
             else ConfigResult.plain (spreadMerge d.loadDefaultModels r.models))) inc =
            some (if inc then ConfigResult.detailed
                (spreadMerge d.loadDefaultModels r.models) r.modelDetails
              else ConfigResult.plain (spreadMerge d.loadDefaultModels r.models)) := by
          cases inc <;> simp [getSlot, setSlot]
        simp [loadModelsT, hslot]

/-- Witness for C5 at a concrete miss-then-hit pair: the first call
populates the plain slot with `{C:["d1"]}` after one defaults call and
one fetch; the second call returns the stored value with an empty
invocation trace. -/
theorem cache_round_trip_witness :
    loadModelsT c3Deps false
        ⟨some (ConfigResult.plain [("C", [ModelEntry.str "d1"])]), none⟩ =
      (Except.ok (ConfigResult.plain [("C", [ModelEntry.str "d1"])]),
        ⟨some (ConfigResult.plain [("C", [ModelEntry.str "d1"])]), none⟩, []) :=
  cache_round_trip c3Deps false emptyCache
    ⟨some (ConfigResult.plain [("C", [ModelEntry.str "d1"])]), none⟩
    (ConfigResult.plain [("C", [ModelEntry.str "d1"])])
    [CallEv.defaults, CallEv.fetch (mkParams c3Deps epC)] rfl

/-! ### Claim C8 -/

theorem alGet_assignDetails_of_not_mem (acc md : Details) (s : String)
    (h : s ∉ alKeys md) : alGet (assignDetails acc md) s = alGet acc s := by
  induction md generalizing acc with
  | nil => rfl
  | cons p t ih =>
    obtain ⟨k, w⟩ := p
    simp only [alKeys, List.map_cons, List.mem_cons, not_or] at h
    show alGet (assignDetails (alSet acc k w) t) s = alGet acc s
    rw [ih (alSet acc k w) (by simpa [alKeys] using h.2),
      alGet_alSet_ne acc k s w h.1]

theorem alGet_assignDetails_mem (acc md : Details) (s : String) (v : Detail)
    (hnd : (alKeys md).Nodup) (h : alGet md s = some v) :
    alGet (assignDetails acc md) s = some v := by
  induction md generalizing acc with
  | nil => simp [alGet] at h
  | cons p t ih =>
    obtain ⟨k, w⟩ := p
    simp only [alKeys, List.map_cons, List.nodup_cons] at hnd
    show alGet (assignDetails (alSet acc k w) t) s = some v
    by_cases hk : k = s
    · subst hk
      simp only [alGet, eq_self_iff_true, if_true, Option.some.injEq] at h
      subst h
      rw [alGet_assignDetails_of_not_mem (alSet acc k w) t k
        (by simpa [alKeys] using hnd.1)]
      exact alGet_alSet_self acc k w
    · simp only [alGet, hk, if_false] at h
      exact ih (alSet acc k w) hnd.2 h

theorem alKeys_assignDetails_nodup (acc md : Details)
    (h : (alKeys acc).Nodup) : (alKeys (assignDetails acc md)).Nodup := by
  induction md generalizing acc with
  | nil => exact h
  | cons p t ih =>
    obtain ⟨k, w⟩ := p
    show (alKeys (assignDetails (alSet acc k w) t)).Nodup
    exact ih (alSet acc k w) (alKeys_alSet_nodup k w h)

/-- C8: in detailed mode the fetched `modelDetails` mappings of all
groups are merged into one accumulator with last-write-wins on key
collision, in deterministic first-seen key order (endpoint declaration
order): for the two distinct-key groups of `detDeps` whose results both
carry metadata for the model id `s`, the merged mapping holds exactly
one entry for `s`, taken from the group of the later-declared endpoint. -/
theorem details_last_write_wins (md1 md2 : Details) (s : String) (v1 v2 : Detail)
    (_h1 : alGet md1 s = some v1) (h2 : alGet md2 s = some v2)
    (hnd : (alKeys md2).Nodup) :
    ∃ r, loadConfigModels (detDeps md1 md2) true = Except.ok r ∧
      alGet r.modelDetails s = some v2 ∧
      (alKeys r.modelDetails).count s = 1 := by
  have hfe : firstErr (loadState (detDeps md1 md2) true).fetchPromisesMap = none := rfl
  refine ⟨_, loadConfigModels_ok _ _ hfe, ?_, ?_⟩
  · show alGet (secondLoop true (loadState (detDeps md1 md2) true)).2 s = some v2
    have hsec : (secondLoop true (loadState (detDeps md1 md2) true)).2 =
        assignDetails (assignDetails [] md1) md2 := rfl
    rw [hsec]
    exact alGet_assignDetails_mem _ md2 s v2 hnd h2
  · show (alKeys (secondLoop true (loadState (detDeps md1 md2) true)).2).count s = 1
    have hsec : (secondLoop true (loadState (detDeps md1 md2) true)).2 =
        assignDetails (assignDetails [] md1) md2 := rfl
    rw [hsec]
    have hnodup : (alKeys (assignDetails (assignDetails [] md1) md2)).Nodup :=
      alKeys_assignDetails_nodup _ md2
        (alKeys_assignDetails_nodup _ md1 (by simp [alKeys]))
    have hmem : s ∈ alKeys (assignDetails (assignDetails [] md1) md2) :=
      mem_alKeys_of_alGet (alGet_assignDetails_mem _ md2 s v2 hnd h2)
    exact count_eq_one_of_nodup_mem hnodup hmem

/-- Witness for C8 at the spec's scenario: both groups carry metadata
for the model id `shared` with different content; the merged mapping
holds exactly the later group's entry. -/
theorem details_last_write_wins_witness :
    ∃ r, loadConfigModels (detDeps [("shared", "one")] [("shared", "two")]) true =
        Except.ok r ∧
      alGet r.modelDetails "shared" = some "two" ∧
      (alKeys r.modelDetails).count "shared" = 1 :=
  details_last_write_wins [("shared", "one")] [("shared", "two")] "shared"
    "one" "two" rfl rfl (by decide)

end LibreChat
